import Mathlib

/-!
Verification of the audiomemo capture/transcription core against its
specification.  The Go sources are shallowly embedded: Go `float64` values
are modelled as exact rationals (`ℚ`), Go slices as lists, Go maps as
functions into `Option`, and fallible functions as `Except`/`Option`.
String primitives from the Go standard library (`strings.TrimSpace`,
`strings.Split`, `strings.TrimRight`, `fmt.Sprintf` zero-padding) are
re-implemented structurally over `List Char` so that every definition is
executable by kernel reduction.
-/

set_option linter.unusedVariables false

namespace Audiomemo

/-! ### Go string primitives -/

/-- Character class of Go `unicode.IsSpace` restricted to the Latin-1 range
(space, `\t`, `\n`, vertical tab, form feed, `\r`, NEL, NBSP); the higher
Unicode space runes never occur in the strings this development handles. -/
def goIsSpace (c : Char) : Bool :=
  c == ' ' || c == '\t' || c == '\n' || c == Char.ofNat 11 || c == Char.ofNat 12 ||
  c == '\r' || c == Char.ofNat 0x85 || c == Char.ofNat 0xA0

/-- Embedding of Go `strings.TrimSpace` on the underlying character list. -/
def goTrimSpaceList (l : List Char) : List Char :=
  ((l.dropWhile goIsSpace).reverse.dropWhile goIsSpace).reverse

/-- Embedding of Go `strings.TrimSpace`. -/
def goTrimSpace (s : String) : String :=
  String.mk (goTrimSpaceList s.data)

/-- Embedding of Go `strings.TrimRight(s, "\n")`: strip all trailing newline
characters. -/
def goTrimRightNewlines (s : String) : String :=
  String.mk ((s.data.reverse.dropWhile (fun c => c == '\n')).reverse)

/-- Embedding of Go `strings.Split(s, sep)` for a single-character
separator, on the underlying character list. -/
def splitOnChar (c : Char) : List Char → List (List Char)
  | [] => [[]]
  | x :: xs =>
    let r := splitOnChar c xs
    if x == c then [] :: r
    else
      match r with
      | [] => [[x]]
      | y :: ys => (x :: y) :: ys

/-- Numeric value of a list of ASCII digits. -/
def digitsToNat (l : List Char) : ℕ :=
  l.foldl (fun acc c => acc * 10 + (c.toNat - 48)) 0

/-- Embedding of `fmt.Sscanf(s, "%d", &v)`: skip leading spaces, parse an
optional sign and a digit run; on a failed scan the target keeps its zero
value. -/
def goScanInt (s : String) : ℤ :=
  let l := s.data.dropWhile goIsSpace
  match l with
  | '-' :: r =>
    let ds := r.takeWhile Char.isDigit
    if ds = [] then 0 else -(digitsToNat ds : ℤ)
  | '+' :: r =>
    let ds := r.takeWhile Char.isDigit
    if ds = [] then 0 else (digitsToNat ds : ℤ)
  | _ =>
    let ds := l.takeWhile Char.isDigit
    if ds = [] then 0 else (digitsToNat ds : ℤ)

/-- Embedding of `fmt.Sscanf(s, "%f", &v)` for the decimal forms
`[+|-]digits[.digits]` produced by the whisper tools; on a failed scan the
target keeps its zero value.  (Exponent and `inf`/`nan` forms never occur
in the timestamp fields this parser is applied to.) -/
def goScanFloat (s : String) : ℚ :=
  let l := s.data.dropWhile goIsSpace
  let signAndRest : Bool × List Char :=
    match l with
    | '-' :: r => (true, r)
    | '+' :: r => (false, r)
    | _ => (false, l)
  let neg := signAndRest.1
  let body := signAndRest.2
  let intDs := body.takeWhile Char.isDigit
  let rest := body.dropWhile Char.isDigit
  let fracDs : List Char :=
    match rest with
    | '.' :: r => r.takeWhile Char.isDigit
    | _ => []
  if intDs = [] ∧ fracDs = [] then 0
  else
    let mag : ℚ := (digitsToNat intDs : ℚ) + (digitsToNat fracDs : ℚ) / ((10 : ℚ) ^ fracDs.length)
    if neg then -mag else mag

/-- Zero-pad a digit string on the left to width `w` (the digit part of Go
`%0*d`). -/
def zeroPad (w : Nat) (s : String) : String :=
  if w ≤ s.length then s else String.mk (List.replicate (w - s.length) '0') ++ s

/-- Embedding of Go `fmt.Sprintf("%0wd", n)`: the sign, when present, counts
toward the width and precedes the zero padding. -/
def goPadInt (w : Nat) (n : ℤ) : String :=
  if n < 0 then "-" ++ zeroPad (w - 1) (Nat.repr n.natAbs) else zeroPad w (Nat.repr n.natAbs)

/-- Go `int(x)` conversion from `float64`: truncation toward zero, modelled
on exact rationals. -/
def goTrunc (q : ℚ) : ℤ :=
  q.num.tdiv (q.den : ℤ)

/-! ### Result model (`internal/transcribe/result.go`)

`Segment.speaker` is the diarization label of the current data model: the
checked-in `result.go` predates it, but `deepgram.go` assigns
`seg.Speaker = fmt.Sprintf("Speaker %d", u.Speaker)`, so the field is
declared by its callers; its JSON tag `speaker,omitempty` and the
formatter behaviour below are modelled from the spec. -/

structure Segment where
  start : ℚ
  end_ : ℚ
  text : String
  speaker : String
  deriving DecidableEq

structure Result where
  text : String
  segments : List Segment
  language : String
  duration : ℚ
  deriving DecidableEq

inductive OutputFormat where
  | text
  | json
  | srt
  | vtt
  deriving DecidableEq

/-- Embedding of `ParseFormat` (`transcribe.go`): unknown names default to
the text format. -/
def ParseFormat (s : String) : OutputFormat :=
  if s = "json" then .json
  else if s = "srt" then .srt
  else if s = "vtt" then .vtt
  else .text

/-- Embedding of `srtTime`: `HH:MM:SS,mmm` with comma-separated
milliseconds.  Go `int(seconds)` is truncation toward zero and `/`, `%` on
Go ints are truncated division and remainder. -/
def srtTime (seconds : ℚ) : String :=
  let t : ℤ := goTrunc seconds
  let h := t.tdiv 3600
  let m := (t.tmod 3600).tdiv 60
  let s := t.tmod 60
  let ms := goTrunc ((seconds - (t : ℚ)) * 1000)
  goPadInt 2 h ++ ":" ++ goPadInt 2 m ++ ":" ++ goPadInt 2 s ++ "," ++ goPadInt 3 ms

/-- Embedding of `vttTime`: identical to `srtTime` except for the
dot-separated milliseconds. -/
def vttTime (seconds : ℚ) : String :=
  let t : ℤ := goTrunc seconds
  let h := t.tdiv 3600
  let m := (t.tmod 3600).tdiv 60
  let s := t.tmod 60
  let ms := goTrunc ((seconds - (t : ℚ)) * 1000)
  goPadInt 2 h ++ ":" ++ goPadInt 2 m ++ ":" ++ goPadInt 2 s ++ "." ++ goPadInt 3 ms

/-- Embedding of the `Result.segments()` helper: the segment list when
non-empty, otherwise a single synthetic segment spanning `[0, duration]`
carrying the full transcript. -/
def Result.segmentsOrSynth (r : Result) : List Segment :=
  match r.segments with
  | [] => [⟨0, r.duration, r.text, ""⟩]
  | s :: rest => s :: rest

/-- Modelled from the spec: the text-format line for one segment — the
segment text prefixed with `"Speaker N: "` when the segment carries a
speaker label. -/
def textLine (seg : Segment) : String :=
  if seg.speaker = "" then seg.text else seg.speaker ++ ": " ++ seg.text

/-- Text body built the way the Go formatter loop builds it: a newline
separator before every line except the first. -/
def textBodyGo : Bool → List Segment → String
  | _, [] => ""
  | first, seg :: rest => (if first then "" else "\n") ++ textLine seg ++ textBodyGo false rest

/-- Whether any segment carries a speaker label. -/
def Result.hasSpeakers (r : Result) : Bool :=
  r.segments.any (fun seg => !(seg.speaker == ""))

/-- Modelled from the spec: the text format returns the transcript
verbatim, except that when any segment carries a speaker label every
segment is rendered as its own line with a speaker prefix.  (The checked-in
`result.go` predates diarization and lacks this branch.) -/
def Result.formatText (r : Result) : String :=
  if r.hasSpeakers then textBodyGo true r.segments else r.text

/-- Modelled from the spec: SRT/VTT segment text is the trimmed transcript
fragment, prefixed with `"[Speaker N] "` when the segment carries a
speaker label. -/
def subtitleText (seg : Segment) : String :=
  if seg.speaker = "" then goTrimSpace seg.text
  else "[" ++ seg.speaker ++ "] " ++ goTrimSpace seg.text

/-- One SRT block as written by the `formatSRT` loop body: index line,
timestamp line, text line, blank separator line. -/
def srtBlock (i : Nat) (seg : Segment) : String :=
  Nat.repr i ++ "\n" ++ srtTime seg.start ++ " --> " ++ srtTime seg.end_ ++ "\n" ++
    subtitleText seg ++ "\n\n"

/-- The `formatSRT` loop: blocks numbered consecutively starting at `i`. -/
def srtBody : Nat → List Segment → String
  | _, [] => ""
  | i, seg :: rest => srtBlock i seg ++ srtBody (i + 1) rest

/-- Embedding of `formatSRT`: numbered blocks from 1, trailing newlines
collapsed to exactly one. -/
def Result.formatSRT (r : Result) : String :=
  goTrimRightNewlines (srtBody 1 r.segmentsOrSynth) ++ "\n"

/-- One VTT block as written by the `formatVTT` loop body (no index
line). -/
def vttBlock (seg : Segment) : String :=
  vttTime seg.start ++ " --> " ++ vttTime seg.end_ ++ "\n" ++ subtitleText seg ++ "\n\n"

/-- The `formatVTT` loop. -/
def vttBody : List Segment → String
  | [] => ""
  | seg :: rest => vttBlock seg ++ vttBody rest

/-- Embedding of `formatVTT`: `WEBVTT` header, unnumbered blocks, trailing
newlines collapsed to exactly one. -/
def Result.formatVTT (r : Result) : String :=
  goTrimRightNewlines ("WEBVTT\n\n" ++ vttBody r.segmentsOrSynth) ++ "\n"

/-! ### JSON serialization (`formatJSON` / `encoding/json`)

`formatJSON` is `json.MarshalIndent` of the `Result` struct; decoding is
`json.Unmarshal` back into the same struct.  Both are embedded at the JSON
value level: `Json` is the tree of JSON values, `marshalResult` renders a
`Result` following the struct tags (field order and `omitempty`), and
`unmarshalResult` reads a JSON value back with Go's semantics (absent or
null fields keep the zero value, mistyped fields fail).  Numbers and
strings are carried exactly by the tree, abstracting Go's digit-level
rendering, which is injective for `float64`. -/

inductive Json where
  | str (s : String)
  | num (q : ℚ)
  | bool (b : Bool)
  | null
  | arr (elems : List Json)
  | obj (fields : List (String × Json))

/-- JSON rendering of one `Segment` per its struct tags:
`start`, `end`, `text`, and `speaker` with `omitempty`. -/
def marshalSegment (seg : Segment) : Json :=
  .obj ([("start", .num seg.start), ("end", .num seg.end_), ("text", .str seg.text)] ++
    (if seg.speaker = "" then [] else [("speaker", .str seg.speaker)]))

/-- JSON rendering of a `Result` per its struct tags: `text`, then
`segments`, `language`, `duration`, the latter three with `omitempty`. -/
def marshalResult (r : Result) : Json :=
  .obj ([("text", .str r.text)] ++
    (if r.segments = [] then [] else [("segments", .arr (r.segments.map marshalSegment))]) ++
    (if r.language = "" then [] else [("language", .str r.language)]) ++
    (if r.duration = 0 then [] else [("duration", .num r.duration)]))

/-- Field lookup with Go `encoding/json` duplicate-key semantics (the last
occurrence wins). -/
def lookupField : List (String × Json) → String → Option Json
  | [], _ => none
  | (k, v) :: fs, key =>
    match lookupField fs key with
    | some w => some w
    | none => if key = k then some v else none

/-- Read a string-typed struct field: absent or null keeps the zero value,
any other non-string value is a decode error. -/
def getStrField (fs : List (String × Json)) (k : String) : Option String :=
  match lookupField fs k with
  | none => some ""
  | some (.str s) => some s
  | some .null => some ""
  | some _ => none

/-- Read a float64-typed struct field: absent or null keeps the zero
value. -/
def getNumField (fs : List (String × Json)) (k : String) : Option ℚ :=
  match lookupField fs k with
  | none => some 0
  | some (.num q) => some q
  | some .null => some 0
  | some _ => none

/-- Embedding of `json.Unmarshal` into `Segment`. -/
def unmarshalSegment : Json → Option Segment
  | .obj fs =>
    match getNumField fs "start", getNumField fs "end",
        getStrField fs "text", getStrField fs "speaker" with
    | some st, some en, some tx, some sp => some ⟨st, en, tx, sp⟩
    | _, _, _, _ => none
  | _ => none

/-- Decode a JSON array elementwise into segments, failing if any element
fails. -/
def decodeSegments : List Json → Option (List Segment)
  | [] => some []
  | j :: rest =>
    match unmarshalSegment j, decodeSegments rest with
    | some s, some l => some (s :: l)
    | _, _ => none

/-- Embedding of `json.Unmarshal` into `Result`. -/
def unmarshalResult : Json → Option Result
  | .obj fs =>
    let segs : Option (List Segment) :=
      match lookupField fs "segments" with
      | none => some []
      | some .null => some []
      | some (.arr xs) => decodeSegments xs
      | some _ => none
    match getStrField fs "text", segs, getStrField fs "language", getNumField fs "duration" with
    | some tx, some sg, some lg, some du => some ⟨tx, sg, lg, du⟩
    | _, _, _, _ => none
  | _ => none

/-! ### Local backend output parsing (`internal/transcribe/whisper.go`)

The three incompatible output schemas are embedded post-`json.Unmarshal`:
the structs below mirror `whisperOutput`, `whisperSegment`,
`whisperCPPSegment` and `ffmpegSegment`, and the parse functions mirror the
loops that normalize them into `Result`. -/

/-- Embedding of `parseTimestamp`: `"HH:MM:SS[.mmm]"` to seconds; any
string that does not split into exactly three colon-separated fields
yields the zero-initialized `h`, `m`, `s`. -/
def parseTimestamp (ts : String) : ℚ :=
  match splitOnChar ':' ts.data with
  | [p0, p1, p2] =>
    (goScanInt (String.mk p0) : ℚ) * 3600 + (goScanInt (String.mk p1) : ℚ) * 60 +
      goScanFloat (String.mk p2)
  | _ => ((0 : ℤ) : ℚ) * 3600 + ((0 : ℤ) : ℚ) * 60 + 0

/-- Mirror of `whisperSegment` (reference/whisperx schema): float seconds. -/
structure WhisperSegmentIn where
  start : ℚ
  end_ : ℚ
  text : String
  deriving DecidableEq

/-- Mirror of `whisperCPPSegment`: string timestamps plus integer
millisecond offsets. -/
structure WhisperCPPSegmentIn where
  timestampsFrom : String
  timestampsTo : String
  offsetsFrom : ℤ
  offsetsTo : ℤ
  text : String
  deriving DecidableEq

/-- Mirror of the unified `whisperOutput` decode target. -/
structure WhisperOutput where
  text : String
  segments : List WhisperSegmentIn
  language : String
  resultLanguage : String
  transcription : List WhisperCPPSegmentIn
  deriving DecidableEq

/-- One step of the transcript builder: Go writes a space separator only
when the builder is non-empty, then the segment text. -/
def joinSpaceStep (acc t : String) : String :=
  (if 0 < acc.length then acc ++ " " else acc) ++ t

/-- The `parseWhisperCPPOutput` loop: drop segments whose trimmed text is
empty, convert millisecond offsets to seconds, and build the transcript. -/
def cppCollect : List WhisperCPPSegmentIn → List Segment → String → List Segment × String
  | [], segs, full => (segs, full)
  | seg :: rest, segs, full =>
    let text := goTrimSpace seg.text
    if text = "" then cppCollect rest segs full
    else
      cppCollect rest
        (segs ++ [⟨(seg.offsetsFrom : ℚ) / 1000, (seg.offsetsTo : ℚ) / 1000, text, ""⟩])
        (joinSpaceStep full text)

/-- Embedding of `parseWhisperCPPOutput`. -/
def parseWhisperCPPOutput (out : WhisperOutput) : Result :=
  let p := cppCollect out.transcription [] ""
  { text := p.2, segments := p.1, language := out.resultLanguage,
    duration := match p.1.getLast? with | some s => s.end_ | none => 0 }

/-- The transcript rebuild loop of `parseOutput` (whisperx may omit the
top-level text): joined with a space before every element but the first,
regardless of emptiness. -/
def spaceJoinAll : List String → String
  | [] => ""
  | [t] => t
  | t :: rest => t ++ " " ++ spaceJoinAll rest

/-- Embedding of `parseOutput`: dispatch to the whisper-cpp schema when
`transcription` is non-empty, otherwise normalize the reference/whisperx
schema (trimming each segment text but keeping every segment). -/
def parseOutput (out : WhisperOutput) : Result :=
  if out.transcription ≠ [] then parseWhisperCPPOutput out
  else
    let segs := out.segments.map (fun s => (⟨s.start, s.end_, goTrimSpace s.text, ""⟩ : Segment))
    let text0 := goTrimSpace out.text
    let text :=
      if text0 = "" ∧ segs ≠ [] then spaceJoinAll (segs.map Segment.text) else text0
    { text := text, segments := segs, language := out.language,
      duration := match segs.getLast? with | some s => s.end_ | none => 0 }

/-- Mirror of `ffmpegSegment`: one newline-delimited JSON record of the
embedded-filter schema. -/
structure FFmpegSegmentIn where
  fromTs : String
  toTs : String
  text : String
  deriving DecidableEq

/-- The `parseFFmpegWhisperOutput` scanner loop, applied to the per-line
decode outcomes (`none` models a blank or undecodable line, which the loop
skips). -/
def ffmpegCollect : List (Option FFmpegSegmentIn) → List Segment → String → List Segment × String
  | [], segs, full => (segs, full)
  | none :: rest, segs, full => ffmpegCollect rest segs full
  | some seg :: rest, segs, full =>
    let text := goTrimSpace seg.text
    if text = "" then ffmpegCollect rest segs full
    else
      ffmpegCollect rest
        (segs ++ [⟨parseTimestamp seg.fromTs, parseTimestamp seg.toTs, text, ""⟩])
        (joinSpaceStep full text)

/-- Embedding of `parseFFmpegWhisperOutput` over the decoded lines. -/
def parseFFmpegWhisperOutput (lines : List (Option FFmpegSegmentIn)) : Result :=
  let p := ffmpegCollect lines [] ""
  { text := p.2, segments := p.1, language := "",
    duration := match p.1.getLast? with | some s => s.end_ | none => 0 }

/-! ### Cloud backend response parsing
(`deepgram.go`, and `openai.go` / `mistral.go` among the unnamed files) -/

/-- Mirror of one entry of `deepgramResponse.Results.Utterances`. -/
structure DeepgramUtterance where
  start : ℚ
  end_ : ℚ
  transcript : String
  speaker : ℤ
  deriving DecidableEq

/-- Mirror of `deepgramResponse`: the metadata duration, per-channel
alternative transcripts, and the utterance list. -/
structure DeepgramResponse where
  metadataDuration : ℚ
  channels : List (List String)
  utterances : List DeepgramUtterance
  deriving DecidableEq

/-- Embedding of `Deepgram.parseResponse`: duration is copied from the
response metadata; the speaker label is attached only when diarization was
requested. -/
def deepgramParseResponse (resp : DeepgramResponse) (diarize : Bool) : Result :=
  { text :=
      match resp.channels with
      | (t :: _) :: _ => t
      | _ => "",
    segments := resp.utterances.map (fun u =>
      (⟨u.start, u.end_, u.transcript,
        if diarize then "Speaker " ++ Int.repr u.speaker else ""⟩ : Segment)),
    language := "",
    duration := resp.metadataDuration }

/-- Mirror of `openaiVerboseResponse` (segments share the reference float
shape). -/
structure OpenAIResponse where
  text : String
  language : String
  duration : ℚ
  segments : List WhisperSegmentIn
  deriving DecidableEq

/-- Embedding of `OpenAI.parseVerboseResponse`: all fields are copied from
the response, duration included. -/
def openaiParseVerboseResponse (resp : OpenAIResponse) : Result :=
  { text := resp.text, language := resp.language, duration := resp.duration,
    segments := resp.segments.map (fun s => (⟨s.start, s.end_, s.text, ""⟩ : Segment)) }

/-- Mirror of `mistralResponse`. -/
structure MistralResponse where
  model : String
  text : String
  language : String
  segments : List WhisperSegmentIn
  deriving DecidableEq

/-- Embedding of `Mistral.parseResponse`: duration is the end of the last
segment when any segment is present. -/
def mistralParseResponse (resp : MistralResponse) : Result :=
  let segs := resp.segments.map (fun s => (⟨s.start, s.end_, s.text, ""⟩ : Segment))
  { text := resp.text, language := resp.language, segments := segs,
    duration := match segs.getLast? with | some s => s.end_ | none => 0 }

/-! ### Transcription options and capability validation
(`transcribe.go` among the unnamed files) -/

/-- Mirror of `TranscribeOpts`. -/
structure TranscribeOpts where
  model : String
  language : String
  format : OutputFormat
  verbose : Bool
  diarize : Bool
  smartFormat : Bool
  punctuate : Bool
  fillerWords : Bool
  numerals : Bool

/-- Embedding of `validateOpts`: the five option flags are checked in the
fixed order diarize, smart-format, punctuate, filler-words, numerals; the
first requested-but-unsupported flag produces the error. -/
def validateOpts (backendName : String) (opts : TranscribeOpts)
    (supportsDiarize supportsSmartFormat supportsPunctuate
      supportsFillerWords supportsNumerals : Bool) : Option String :=
  if opts.diarize && !supportsDiarize then
    some (backendName ++ " does not support --diarize")
  else if opts.smartFormat && !supportsSmartFormat then
    some (backendName ++ " does not support --smart-format")
  else if opts.punctuate && !supportsPunctuate then
    some (backendName ++ " does not support --punctuate")
  else if opts.fillerWords && !supportsFillerWords then
    some (backendName ++ " does not support --filler-words")
  else if opts.numerals && !supportsNumerals then
    some (backendName ++ " does not support --numerals")
  else
    none

/-- Name of the first requested-but-unsupported flag in the order the spec
states (diarize, smart-format, punctuate, filler-words, numerals).  This
is the specification-side definition that `validateOpts` is compared
against. -/
def firstUnsupportedFlag (opts : TranscribeOpts)
    (supportsDiarize supportsSmartFormat supportsPunctuate
      supportsFillerWords supportsNumerals : Bool) : Option String :=
  if opts.diarize && !supportsDiarize then some "diarize"
  else if opts.smartFormat && !supportsSmartFormat then some "smart-format"
  else if opts.punctuate && !supportsPunctuate then some "punctuate"
  else if opts.fillerWords && !supportsFillerWords then some "filler-words"
  else if opts.numerals && !supportsNumerals then some "numerals"
  else none

/-- Outcome of the phase of a cloud `Transcribe` call that precedes any
network traffic: either it fails with an error, or it goes on to issue the
single HTTP request. -/
inductive CloudPhase where
  | failed (msg : String)
  | httpIssued
  deriving DecidableEq

/-- Embedding of the pre-HTTP phase of `Deepgram.Transcribe`: missing API
key check, then capability validation against the row
(true, true, true, true, true); only then is the request built and sent. -/
def deepgramPreHttp (apiKey : String) (opts : TranscribeOpts) : CloudPhase :=
  if apiKey = "" then
    .failed "deepgram API key not configured (set DEEPGRAM_API_KEY or config)"
  else
    match validateOpts "deepgram" opts true true true true true with
    | some e => .failed e
    | none => .httpIssued

/-- Embedding of the pre-HTTP phase of `OpenAI.Transcribe`: capability row
(false, false, false, false, false). -/
def openaiPreHttp (apiKey : String) (opts : TranscribeOpts) : CloudPhase :=
  if apiKey = "" then
    .failed "OpenAI API key not configured (set OPENAI_API_KEY or config)"
  else
    match validateOpts "openai" opts false false false false false with
    | some e => .failed e
    | none => .httpIssued

/-- Embedding of the pre-HTTP phase of `Mistral.Transcribe`: capability row
(false, false, false, false, false). -/
def mistralPreHttp (apiKey : String) (opts : TranscribeOpts) : CloudPhase :=
  if apiKey = "" then
    .failed "Mistral API key not configured (set MISTRAL_API_KEY or config)"
  else
    match validateOpts "mistral" opts false false false false false with
    | some e => .failed e
    | none => .httpIssued

/-! ### Device resolution (`internal/config/config.go`) -/

/-- The two configuration maps `ResolveDevice` consults, with Go map
lookup semantics. -/
structure DeviceConfig where
  devices : String → Option String
  deviceGroups : String → Option (List String)

/-- Error text of `fmt.Errorf("device group %q references unknown alias %q",
name, alias)` (the names carry no characters `%q` would escape). -/
def groupErrMsg (name a : String) : String :=
  "device group \"" ++ name ++ "\" references unknown alias \"" ++ a ++ "\""

/-- The member-resolution loop of `ResolveDevice`: resolve every alias of
the group in order, failing on the first alias absent from the device
map. -/
def resolveGroupAliases (cfg : DeviceConfig) (name : String) :
    List String → Except String (List String)
  | [] => .ok []
  | a :: rest =>
    match cfg.devices a with
    | none => .error (groupErrMsg name a)
    | some raw =>
      match resolveGroupAliases cfg name rest with
      | .error e => .error e
      | .ok ds => .ok (raw :: ds)

/-- Embedding of `Config.ResolveDevice`: empty name, then group, then
alias, then raw name, each step short-circuiting the next. -/
def resolveDevice (cfg : DeviceConfig) (name : String) : Except String (List String) :=
  if name = "" then .ok ["default"]
  else
    match cfg.deviceGroups name with
    | some aliases => resolveGroupAliases cfg name aliases
    | none =>
      match cfg.devices name with
      | some raw => .ok [raw]
      | none => .ok [name]

/-! ### Telemetry queue (`internal/record/recorder.go`)

`Start` creates `Level` as a buffered channel of capacity 10; the
`parseStderr` reader pushes each extracted decibel sample with
`select { case r.Level <- val: default: }`.  The channel is modelled as a
bounded FIFO list; consumer receives take the head.  Sample values are
abstract (`α`), standing for the decibel values the reader extracts. -/

/-- Capacity of the `Level` channel created in `Start`. -/
def levelCap : ℕ := 10

/-- Embedding of the reader's non-blocking send: enqueue when the buffer
has room, otherwise drop the incoming sample and continue. -/
def levelPush {α : Type} (q : List α) (v : α) : List α :=
  if q.length < levelCap then q ++ [v] else q

/-- One interleaving event at the `Level` channel: the reader pushing an
extracted sample, or the consumer receiving. -/
inductive LevelEvent (α : Type) where
  | push (v : α)
  | pop

/-- Run an interleaving from a starting queue: returns the final queue and
the sequence of samples the consumer received.  A receive on an empty
buffer delivers nothing (the consumer's receive simply has not completed
yet). -/
def levelRun {α : Type} : List (LevelEvent α) → List α → List α × List α
  | [], q => (q, [])
  | .push v :: es, q => levelRun es (levelPush q v)
  | .pop :: es, [] => levelRun es []
  | .pop :: es, v :: rest =>
    let p := levelRun es rest
    (p.1, v :: p.2)

/-- The samples the reader produced, in production order. -/
def producedOf {α : Type} (es : List (LevelEvent α)) : List α :=
  es.filterMap (fun e => match e with | .push v => some v | .pop => none)

/-! ### Concrete inputs used by witnesses and counterexamples -/

/-- A reference-schema output with one segment, used to witness the
duration invariant. -/
def whisperOut0 : WhisperOutput :=
  ⟨"hello", [⟨0, 2, "hello"⟩], "en", "", []⟩

/-- A reference-schema output whose single segment is whitespace-only. -/
def whisperOutBlankSeg : WhisperOutput :=
  ⟨"x", [⟨0, 1, " "⟩], "en", "", []⟩

/-- A deepgram response whose metadata duration (10s) differs from the end
of its last utterance (5s). -/
def dgResp0 : DeepgramResponse :=
  ⟨10, [["hi there"]], [⟨0, 5, "hi there", 0⟩]⟩

/-- A telemetry queue holding `levelCap` pending samples. -/
def fullQueue : List ℕ := [0, 1, 2, 3, 4, 5, 6, 7, 8, 9]

/-- Options requesting only diarization. -/
def optsDiarize : TranscribeOpts := ⟨"", "", .text, false, true, false, false, false, false⟩

/-- A device configuration with two aliases, a healthy group and a group
referencing an unknown alias. -/
def cfg0 : DeviceConfig :=
  ⟨fun n => if n = "mic" then some "rawmic" else if n = "desk" then some "rawdesk" else none,
   fun n =>
     if n = "zoom" then some ["mic", "desk"]
     else if n = "broken" then some ["mic", "ghost"] else none⟩

/-- A device configuration whose group `"g"` has an empty membership
list. -/
def emptyGroupCfg : DeviceConfig :=
  ⟨fun _ => none, fun n => if n = "g" then some [] else none⟩

/-- A diarized result used to witness the speaker-label formatting. -/
def diarizedResult : Result :=
  ⟨"Hello world", [⟨0, 1, "Hello", "Speaker 0"⟩, ⟨1, 2, "world", "Speaker 1"⟩], "", 2⟩

/-- A result with no segments and a non-empty transcript. -/
def synthResult : Result := ⟨"Hello world", [], "en", 5⟩

/-! ### Per-item characterizations of the parser loops

These specification-side functions state, per input segment, what the
whisper-cpp and embedded-filter loops keep; the theorems below prove the
loops equal to `filterMap` over them. -/

/-- What the whisper-cpp loop keeps of one transcription entry. -/
def cppSegOf (seg : WhisperCPPSegmentIn) : Option Segment :=
  let t := goTrimSpace seg.text
  if t = "" then none
  else some ⟨(seg.offsetsFrom : ℚ) / 1000, (seg.offsetsTo : ℚ) / 1000, t, ""⟩

/-- The transcript contribution of one whisper-cpp transcription entry. -/
def cppTextOf (seg : WhisperCPPSegmentIn) : Option String :=
  let t := goTrimSpace seg.text
  if t = "" then none else some t

/-- What the embedded-filter loop keeps of one decoded line. -/
def ffmpegSegOf (line : Option FFmpegSegmentIn) : Option Segment :=
  line.bind fun seg =>
    let t := goTrimSpace seg.text
    if t = "" then none
    else some ⟨parseTimestamp seg.fromTs, parseTimestamp seg.toTs, t, ""⟩

/-- The transcript contribution of one decoded embedded-filter line. -/
def ffmpegTextOf (line : Option FFmpegSegmentIn) : Option String :=
  line.bind fun seg =>
    let t := goTrimSpace seg.text
    if t = "" then none else some t

/-! ### Helper lemmas -/

theorem str_append_assoc (a b c : String) : a ++ b ++ c = a ++ (b ++ c) := by
  apply String.ext
  simp

theorem flagTail_diarize : (" does not support --" ++ "diarize" : String) = " does not support --diarize" := by decide

theorem flagTail_smartFormat : (" does not support --" ++ "smart-format" : String) = " does not support --smart-format" := by decide

theorem flagTail_punctuate : (" does not support --" ++ "punctuate" : String) = " does not support --punctuate" := by decide

theorem flagTail_fillerWords : (" does not support --" ++ "filler-words" : String) = " does not support --filler-words" := by decide

theorem flagTail_numerals : (" does not support --" ++ "numerals" : String) = " does not support --numerals" := by decide

theorem openaiMsgHead : ("openai" ++ " does not support --" : String) = "openai does not support --" := by decide

theorem mistralMsgHead : ("mistral" ++ " does not support --" : String) = "mistral does not support --" := by decide

theorem producedOf_push {α : Type} (v : α) (es : List (LevelEvent α)) :
    producedOf (.push v :: es) = v :: producedOf es := by
  simp [producedOf]

theorem producedOf_pop {α : Type} (es : List (LevelEvent α)) :
    producedOf (.pop :: es) = producedOf es := by
  simp [producedOf]

/-- Delivered samples are a sublist of the starting queue followed by the
produced samples. -/
theorem levelRun_sublist {α : Type} :
    ∀ (es : List (LevelEvent α)) (q : List α), (levelRun es q).2.Sublist (q ++ producedOf es)
  | [], q => by simp [levelRun]
  | .push v :: es, q => by
    rw [levelRun, producedOf_push]
    refine (levelRun_sublist es (levelPush q v)).trans ?_
    unfold levelPush
    split
    · rw [List.append_assoc, List.singleton_append]
    · exact ((producedOf es).sublist_cons_self v).append_left q
  | .pop :: es, [] => by
    rw [levelRun, producedOf_pop]
    exact (levelRun_sublist es []).trans (List.sublist_append_right _ _)
  | .pop :: es, v :: rest => by
    rw [levelRun, producedOf_pop]
    exact (levelRun_sublist es rest).cons₂ v

/-- `validateOpts` reports exactly the first unsupported flag in the
spec's order, formatted as `"<backend> does not support --<flag>"`. -/
theorem validateOpts_eq_firstUnsupported (name : String) (opts : TranscribeOpts)
    (d sf p fw n : Bool) :
    validateOpts name opts d sf p fw n =
      (firstUnsupportedFlag opts d sf p fw n).map
        (fun f => name ++ " does not support --" ++ f) := by
  unfold validateOpts firstUnsupportedFlag
  by_cases h1 : (opts.diarize && !d) = true <;>
    by_cases h2 : (opts.smartFormat && !sf) = true <;>
      by_cases h3 : (opts.punctuate && !p) = true <;>
        by_cases h4 : (opts.fillerWords && !fw) = true <;>
          by_cases h5 : (opts.numerals && !n) = true <;>
            simp [h1, h2, h3, h4, h5, str_append_assoc, flagTail_diarize,
              flagTail_smartFormat, flagTail_punctuate, flagTail_fillerWords,
              flagTail_numerals]

/-- The group-member loop succeeds with the aliases' raw names, in order,
when every member resolves. -/
theorem resolveGroupAliases_ok (cfg : DeviceConfig) (g : String) :
    ∀ (as : List String) (raws : List String),
      as.mapM cfg.devices = some raws → resolveGroupAliases cfg g as = .ok raws
  | [], raws => by
    intro h
    simp only [List.mapM_nil, Option.pure_def, Option.some.injEq] at h
    simp [resolveGroupAliases, ← h]
  | a :: rest, raws => by
    intro h
    simp only [List.mapM_cons, Option.pure_def, Option.bind_eq_bind, Option.bind_eq_some,
      Option.some.injEq] at h
    obtain ⟨r, hr, rs, hrs, hraws⟩ := h
    rw [resolveGroupAliases, hr, resolveGroupAliases_ok cfg g rest rs hrs, ← hraws]

/-- The group-member loop fails with the missing-alias error naming the
group and the sole unresolvable member. -/
theorem resolveGroupAliases_err (cfg : DeviceConfig) (g a : String)
    (ha : cfg.devices a = none) :
    ∀ as : List String, a ∈ as → (∀ b ∈ as, cfg.devices b = none → b = a) →
      resolveGroupAliases cfg g as = .error (groupErrMsg g a)
  | [], hmem, _ => absurd hmem (List.not_mem_nil a)
  | b :: rest, hmem, huniq => by
    rcases hb : cfg.devices b with _ | raw
    · have hba : b = a := huniq b (List.mem_cons_self b rest) hb
      rw [resolveGroupAliases, hb, hba]
    · have hne : a ≠ b := by
        intro hab
        rw [← hab, ha] at hb
        exact Option.noConfusion hb
      have hrest : a ∈ rest := by
        rcases List.mem_cons.mp hmem with h | h
        · exact absurd h hne
        · exact h
      have huniq' : ∀ c ∈ rest, cfg.devices c = none → c = a :=
        fun c hc => huniq c (List.mem_cons_of_mem b hc)
      rw [resolveGroupAliases, hb,
        resolveGroupAliases_err cfg g a ha rest hrest huniq']

/-! ### String formatting lemmas (C1, C5, C8) -/

theorem str_append_empty (s : String) : s ++ "" = s := by
  apply String.ext
  simp

theorem str_empty_append (s : String) : "" ++ s = s := by
  apply String.ext
  simp

theorem str_length_pos_of_ne (s : String) (h : s ≠ "") : 0 < s.length := by
  cases s with
  | mk l =>
    cases l with
    | nil => exact absurd rfl h
    | cons c cs => simp [String.length]

theorem str_ne_empty_append (a b : String) (h : a ≠ "") : a ++ b ≠ "" := by
  intro hc
  apply h
  have hd : (a ++ b).data = ([] : List Char) := by rw [hc]
  rw [String.data_append] at hd
  rcases List.append_eq_nil.mp hd with ⟨ha, _⟩
  cases a with
  | mk l => cases ha; rfl

theorem strFoldlAppend (l : List String) :
    ∀ a : String, List.foldl (fun r s => r ++ s) a l =
      a ++ List.foldl (fun r s => r ++ s) "" l := by
  induction l with
  | nil => intro a; exact (str_append_empty a).symm
  | cons x xs ih =>
    intro a
    rw [List.foldl_cons, List.foldl_cons, ih (a ++ x), ih ("" ++ x), str_empty_append,
      str_append_assoc]

theorem strJoin_cons (s : String) (l : List String) :
    String.join (s :: l) = s ++ String.join l := by
  show List.foldl (fun r t => r ++ t) "" (s :: l) = s ++ List.foldl (fun r t => r ++ t) "" l
  rw [List.foldl_cons, str_empty_append, strFoldlAppend l s]

theorem strJoin_intersperse (x : String) (xs : List String) :
    String.join (List.intersperse "\n" (x :: xs)) =
      x ++ String.join (xs.map (fun l => "\n" ++ l)) := by
  induction xs generalizing x with
  | nil => simp [strJoin_cons, str_append_empty]
  | cons y ys ih =>
    rw [List.intersperse_cons_cons, strJoin_cons, strJoin_cons, ih y, List.map_cons,
      strJoin_cons, str_append_assoc]

theorem textBodyGo_false (segs : List Segment) :
    textBodyGo false segs = String.join (segs.map (fun seg => "\n" ++ textLine seg)) := by
  induction segs with
  | nil => rfl
  | cons s rest ih =>
    simp [textBodyGo, List.map_cons, strJoin_cons, ih, str_append_assoc]

theorem textBodyGo_true (segs : List Segment) :
    textBodyGo true segs = String.join (List.intersperse "\n" (segs.map textLine)) := by
  cases segs with
  | nil => rfl
  | cons s rest =>
    simp only [textBodyGo, if_true, ite_true, str_empty_append, List.map_cons,
      strJoin_intersperse, textBodyGo_false, List.map_map]
    rfl

theorem dropWhile_head_false (p : Char → Bool) :
    ∀ (l : List Char) (c : Char) (rest : List Char), l.dropWhile p = c :: rest → p c = false
  | [], c, rest, h => by simp [List.dropWhile] at h
  | x :: xs, c, rest, h => by
    rw [List.dropWhile_cons] at h
    by_cases hx : p x = true
    · rw [if_pos hx] at h
      exact dropWhile_head_false p xs c rest h
    · rw [if_neg hx] at h
      cases hpx : p x
      · rw [← (List.cons.injEq .. |>.mp h).1]
        exact hpx
      · exact absurd hpx hx

theorem trimmed_getLast_not_space (x : String) :
    ∀ c : Char, (goTrimSpace x).data.getLast? = some c → goIsSpace c = false := by
  intro c hc
  have hd : (goTrimSpace x).data = goTrimSpaceList x.data := rfl
  rw [hd] at hc
  unfold goTrimSpaceList at hc
  rw [List.getLast?_reverse] at hc
  rcases hw : ((x.data.dropWhile goIsSpace).reverse).dropWhile goIsSpace with _ | ⟨c0, rest⟩
  · rw [hw] at hc
    exact absurd hc (by simp)
  · rw [hw] at hc
    simp only [List.head?_cons, Option.some.injEq] at hc
    rw [← hc]
    exact dropWhile_head_false goIsSpace _ c0 rest hw

theorem not_newline_of_not_space {c : Char} (h : goIsSpace c = false) : (c == '\n') = false := by
  cases hc : c == '\n'
  · rfl
  · have : c = '\n' := eq_of_beq hc
    subst this
    exact absurd h (by decide)

theorem dropWhile_replicate_nl (k : ℕ) (rest : List Char) :
    List.dropWhile (fun c => c == '\n') (List.replicate k '\n' ++ rest) =
      List.dropWhile (fun c => c == '\n') rest := by
  induction k with
  | zero => simp
  | succ n ih => simp [List.replicate_succ, List.dropWhile_cons, ih]

theorem nlnl_data : ("\n\n" : String).data = ['\n', '\n'] := by decide

theorem trimRightNl_of_data (s : String) (u : List Char) (t : String) (ht : t.data ≠ [])
    (hlast : ∀ c, t.data.getLast? = some c → (c == '\n') = false)
    (hs : s.data = u ++ t.data ++ ['\n', '\n']) :
    goTrimRightNewlines s = String.mk (u ++ t.data) := by
  set c := t.data.getLast ht with hcdef
  have hcl : (c == '\n') = false := hlast c (List.getLast?_eq_getLast t.data ht)
  have hsplit : t.data.dropLast ++ [c] = t.data := List.dropLast_append_getLast ht
  unfold goTrimRightNewlines
  congr 1
  rw [hs, ← hsplit]
  have h1 : (u ++ (t.data.dropLast ++ [c]) ++ ['\n', '\n']).reverse =
      List.replicate 2 '\n' ++ (c :: (t.data.dropLast.reverse ++ u.reverse)) := by
    simp [List.reverse_append]
  rw [h1, dropWhile_replicate_nl, List.dropWhile_cons, hcl, if_neg (by simp)]
  simp [List.reverse_append]

theorem natReprOneNl : Nat.repr 1 ++ "\n" = ("1\n" : String) := by decide

theorem str_data_ne_nil (s : String) (h : s ≠ "") : s.data ≠ [] := by
  intro h0
  apply h
  cases s with
  | mk l => cases h0; rfl

/-! ### C1 -/

/-- C1: when no segment carries a speaker label the text format returns
the transcript verbatim; when any segment does, the text format renders
one line per segment with the segment's `"Speaker N: "` label as prefix;
and the SRT/VTT blocks of a labelled segment carry the `"[Speaker N] "`
label before the trimmed transcript fragment.  (The speaker-aware
formatter is modelled from the spec; see `Result.formatText`.) -/
theorem c1_speaker_labels :
    (∀ r : Result, r.hasSpeakers = false → r.formatText = r.text) ∧
    (∀ r : Result, r.hasSpeakers = true →
      r.formatText = String.join (List.intersperse "\n" (r.segments.map textLine))) ∧
    (∀ seg : Segment, seg.speaker ≠ "" → textLine seg = seg.speaker ++ ": " ++ seg.text) ∧
    (∀ (i : ℕ) (seg : Segment), seg.speaker ≠ "" →
      srtBlock i seg = Nat.repr i ++ "\n" ++ srtTime seg.start ++ " --> " ++ srtTime seg.end_ ++
        "\n" ++ ("[" ++ seg.speaker ++ "] " ++ goTrimSpace seg.text) ++ "\n\n") ∧
    (∀ seg : Segment, seg.speaker ≠ "" →
      vttBlock seg = vttTime seg.start ++ " --> " ++ vttTime seg.end_ ++ "\n" ++
        ("[" ++ seg.speaker ++ "] " ++ goTrimSpace seg.text) ++ "\n\n") := by
  refine ⟨?_, ?_, ?_, ?_, ?_⟩
  · intro r h
    simp [Result.formatText, h]
  · intro r h
    simp [Result.formatText, h, textBodyGo_true]
  · intro seg h
    simp [textLine, h]
  · intro i seg h
    simp [srtBlock, subtitleText, h, str_append_assoc]
  · intro seg h
    simp [vttBlock, subtitleText, h, str_append_assoc]

/-- C1 witness: a diarized two-segment result. -/
theorem c1_speaker_labels_witness :
    diarizedResult.formatText =
      String.join (List.intersperse "\n" (diarizedResult.segments.map textLine)) ∧
    textLine ⟨0, 1, "Hello", "Speaker 0"⟩ = "Speaker 0" ++ ": " ++ "Hello" :=
  ⟨c1_speaker_labels.2.1 diarizedResult (by decide),
   c1_speaker_labels.2.2.1 ⟨0, 1, "Hello", "Speaker 0"⟩ (by decide)⟩

/-! ### C8 -/

/-- C8: a result with zero segments and non-empty text formats as exactly
one synthetic entry, numbered 1, spanning `[0, duration]` and carrying the
(trimmed) full transcript, for both SRT and VTT; and the entry list the
formatters iterate over is never empty. -/
theorem c8_synthetic_entries :
    (∀ r : Result, r.segments = [] → r.text ≠ "" →
      r.segmentsOrSynth = [⟨0, r.duration, r.text, ""⟩] ∧
      (goTrimSpace r.text ≠ "" →
        r.formatSRT = "1\n" ++ srtTime 0 ++ " --> " ++ srtTime r.duration ++ "\n" ++
          goTrimSpace r.text ++ "\n" ∧
        r.formatVTT = "WEBVTT\n\n" ++ vttTime 0 ++ " --> " ++ vttTime r.duration ++ "\n" ++
          goTrimSpace r.text ++ "\n")) ∧
    (∀ r : Result, 1 ≤ r.segmentsOrSynth.length) := by
  constructor
  · intro r h0 hne
    have hsyn : r.segmentsOrSynth = [⟨0, r.duration, r.text, ""⟩] := by
      unfold Result.segmentsOrSynth
      rw [h0]
    refine ⟨hsyn, fun htr => ⟨?_, ?_⟩⟩
    · have htd := str_data_ne_nil _ htr
      have hlast : ∀ c, (goTrimSpace r.text).data.getLast? = some c → (c == '\n') = false :=
        fun c hc => not_newline_of_not_space (trimmed_getLast_not_space r.text c hc)
      unfold Result.formatSRT
      rw [hsyn]
      simp only [srtBody, str_append_empty]
      have hblock : srtBlock 1 ⟨0, r.duration, r.text, ""⟩ =
          ("1\n" ++ srtTime 0 ++ " --> " ++ srtTime r.duration ++ "\n") ++
            goTrimSpace r.text ++ "\n\n" := by
        simp only [srtBlock, subtitleText, if_pos rfl, ← natReprOneNl]
        simp [str_append_assoc]
      rw [hblock,
        trimRightNl_of_data _ ("1\n" ++ srtTime 0 ++ " --> " ++ srtTime r.duration ++ "\n").data
          (goTrimSpace r.text) htd hlast (by simp [String.data_append, nlnl_data])]
      apply String.ext
      simp [String.data_append, List.append_assoc]
    · have htd := str_data_ne_nil _ htr
      have hlast : ∀ c, (goTrimSpace r.text).data.getLast? = some c → (c == '\n') = false :=
        fun c hc => not_newline_of_not_space (trimmed_getLast_not_space r.text c hc)
      unfold Result.formatVTT
      rw [hsyn]
      simp only [vttBody, str_append_empty]
      have hblock : "WEBVTT\n\n" ++ vttBlock ⟨0, r.duration, r.text, ""⟩ =
          ("WEBVTT\n\n" ++ vttTime 0 ++ " --> " ++ vttTime r.duration ++ "\n") ++
            goTrimSpace r.text ++ "\n\n" := by
        simp only [vttBlock, subtitleText, if_pos rfl]
        simp [str_append_assoc]
      rw [hblock,
        trimRightNl_of_data _
          ("WEBVTT\n\n" ++ vttTime 0 ++ " --> " ++ vttTime r.duration ++ "\n").data
          (goTrimSpace r.text) htd hlast (by simp [String.data_append, nlnl_data])]
      apply String.ext
      simp [String.data_append, List.append_assoc]
  · intro r
    unfold Result.segmentsOrSynth
    cases r.segments <;> simp

/-- C8 witness: the synthetic entry of a concrete zero-segment result. -/
theorem c8_synthetic_entries_witness :
    synthResult.formatSRT = "1\n" ++ srtTime 0 ++ " --> " ++ srtTime synthResult.duration ++
      "\n" ++ goTrimSpace synthResult.text ++ "\n" :=
  (((c8_synthetic_entries.1 synthResult (by decide) (by decide)).2) (by decide)).1

/-! ### C2 -/

/-- C2: the claim that every backend parser sets `duration` to the end of
the last segment fails for the deepgram parser, which copies the response
metadata duration: on a response with metadata duration 10 and a single
utterance ending at 5, the parsed result has a last segment ending at 5
but duration 10. -/
theorem c2_counterexample :
    (deepgramParseResponse dgResp0 true).segments.getLast? =
      some ⟨0, 5, "hi there", "Speaker 0"⟩ ∧
    (deepgramParseResponse dgResp0 true).duration = 10 ∧ ((10 : ℚ) ≠ 5) := by
  decide

/-- C2 (amended): the local whisper parsers and the mistral parser set
`duration` to the end of the last segment whenever the segment list is
non-empty; the deepgram and openai parsers instead copy the duration field
of the response, which need not equal the last segment's end. -/
theorem c2_amended_duration :
    (∀ (out : WhisperOutput) (s : Segment),
      (parseOutput out).segments.getLast? = some s → (parseOutput out).duration = s.end_) ∧
    (∀ (lines : List (Option FFmpegSegmentIn)) (s : Segment),
      (parseFFmpegWhisperOutput lines).segments.getLast? = some s →
        (parseFFmpegWhisperOutput lines).duration = s.end_) ∧
    (∀ (resp : MistralResponse) (s : Segment),
      (mistralParseResponse resp).segments.getLast? = some s →
        (mistralParseResponse resp).duration = s.end_) ∧
    (∀ (resp : DeepgramResponse) (d : Bool),
      (deepgramParseResponse resp d).duration = resp.metadataDuration) ∧
    (∀ resp : OpenAIResponse,
      (openaiParseVerboseResponse resp).duration = resp.duration) := by
  refine ⟨?_, ?_, ?_, fun resp d => rfl, fun resp => rfl⟩
  · intro out s h
    by_cases ht : out.transcription = []
    · simp only [parseOutput, ht, ne_eq, not_true_eq_false, if_false, ite_false] at h ⊢
      rw [h]
    · simp only [parseOutput, ht, ne_eq, not_false_eq_true, if_true, ite_true,
        parseWhisperCPPOutput] at h ⊢
      rw [h]
  · intro lines s h
    simp only [parseFFmpegWhisperOutput] at h ⊢
    rw [h]
  · intro resp s h
    simp only [mistralParseResponse] at h ⊢
    rw [h]

/-- C2 witness: the reference-schema parser on a one-segment output. -/
theorem c2_amended_duration_witness :
    (parseOutput whisperOut0).duration = (⟨0, 2, "hello", ""⟩ : Segment).end_ :=
  c2_amended_duration.1 whisperOut0 ⟨0, 2, "hello", ""⟩ (by decide)

/-! ### C3 -/

/-- C3: `ResolveDevice` on a group with an empty membership list returns
an empty device list with success — the loop body never runs, so no error
is raised, contradicting the documented requirement that an empty group
fail. -/
theorem c3_empty_group_succeeds :
    resolveDevice emptyGroupCfg "g" = .ok [] := by
  rfl

/-! ### C4 -/

/-- C4: the claim that a full queue loses the oldest-pending sample is
false — the non-blocking send drops the incoming (newest) sample and
leaves the queue unchanged. -/
theorem c4_counterexample :
    levelPush fullQueue 10 = fullQueue ∧
    levelPush fullQueue 10 ≠ fullQueue.tail ++ [10] := by
  decide

/-- C4 (amended): the push never blocks — it either enqueues or drops the
incoming sample immediately; when the queue already holds `levelCap`
samples the incoming (newest) sample is the one lost; and the samples the
consumer receives are a sublist of the samples produced: in production
order, each at most once. -/
theorem c4_amended_queue :
    (∀ (q : List ℕ) (v : ℕ), levelPush q v = q ++ [v] ∨ levelPush q v = q) ∧
    (∀ (q : List ℕ) (v : ℕ), q.length = levelCap → levelPush q v = q) ∧
    (∀ es : List (LevelEvent ℕ), (levelRun es []).2.Sublist (producedOf es)) := by
  refine ⟨?_, ?_, ?_⟩
  · intro q v
    unfold levelPush
    split
    · exact Or.inl rfl
    · exact Or.inr rfl
  · intro q v h
    unfold levelPush
    rw [h]
    simp
  · intro es
    simpa using levelRun_sublist es []

/-- C4 witness: a push onto the full queue drops the incoming sample. -/
theorem c4_amended_queue_witness :
    levelPush fullQueue 99 = fullQueue :=
  c4_amended_queue.2.1 fullQueue 99 (by decide)

/-! ### C5 -/

theorem joinSpaceStep_of_ne (acc t : String) (h : acc ≠ "") :
    joinSpaceStep acc t = acc ++ " " ++ t := by
  unfold joinSpaceStep
  rw [if_pos (str_length_pos_of_ne acc h)]

theorem joinSpaceStep_empty_acc (t : String) : joinSpaceStep "" t = t := by
  unfold joinSpaceStep
  rw [if_neg (by decide), str_empty_append]

theorem spaceJoinAll_append_head (a b : String) (rest : List String) :
    spaceJoinAll ((a ++ b) :: rest) = a ++ spaceJoinAll (b :: rest) := by
  cases rest with
  | nil => rfl
  | cons r rs => simp [spaceJoinAll, str_append_assoc]

theorem foldl_joinSpaceStep (ts : List String) :
    ∀ acc : String, acc ≠ "" → List.foldl joinSpaceStep acc ts = spaceJoinAll (acc :: ts) := by
  induction ts with
  | nil => intro acc h; rfl
  | cons t rest ih =>
    intro acc h
    rw [List.foldl_cons, joinSpaceStep_of_ne acc t h,
      ih _ (str_ne_empty_append _ _ (str_ne_empty_append _ _ h)),
      str_append_assoc, spaceJoinAll_append_head, spaceJoinAll_append_head]
    simp [spaceJoinAll, str_append_assoc]

theorem foldl_joinSpaceStep_nil_start (ts : List String) (h : ∀ t ∈ ts, t ≠ "") :
    List.foldl joinSpaceStep "" ts = spaceJoinAll ts := by
  cases ts with
  | nil => rfl
  | cons t rest =>
    rw [List.foldl_cons, joinSpaceStep_empty_acc]
    exact foldl_joinSpaceStep rest t (h t (List.mem_cons_self t rest))

theorem cppCollect_fst :
    ∀ (l : List WhisperCPPSegmentIn) (segs : List Segment) (full : String),
      (cppCollect l segs full).1 = segs ++ l.filterMap cppSegOf
  | [], segs, full => by simp [cppCollect]
  | seg :: rest, segs, full => by
    simp only [cppCollect]
    by_cases ht : goTrimSpace seg.text = ""
    · simp [ht, cppCollect_fst rest segs full, cppSegOf, List.filterMap_cons]
    · simp [ht, cppCollect_fst rest _ _, cppSegOf, List.filterMap_cons, List.append_assoc]

theorem cppCollect_snd :
    ∀ (l : List WhisperCPPSegmentIn) (segs : List Segment) (full : String),
      (cppCollect l segs full).2 = List.foldl joinSpaceStep full (l.filterMap cppTextOf)
  | [], segs, full => by simp [cppCollect]
  | seg :: rest, segs, full => by
    simp only [cppCollect]
    by_cases ht : goTrimSpace seg.text = ""
    · simp [ht, cppCollect_snd rest segs full, cppTextOf, List.filterMap_cons]
    · simp [ht, cppCollect_snd rest _ _, cppTextOf, List.filterMap_cons]

theorem cppTextOf_ne_empty (l : List WhisperCPPSegmentIn) :
    ∀ t ∈ l.filterMap cppTextOf, t ≠ "" := by
  intro t ht
  rw [List.mem_filterMap] at ht
  obtain ⟨a, _, ha⟩ := ht
  unfold cppTextOf at ha
  by_cases h : goTrimSpace a.text = ""
  · simp [h] at ha
  · simp only [h, if_false, ite_false, Option.some.injEq] at ha
    rw [← ha]
    exact h

theorem cppSegOf_texts (l : List WhisperCPPSegmentIn) :
    (l.filterMap cppSegOf).map Segment.text = l.filterMap cppTextOf := by
  rw [List.map_filterMap]
  congr 1
  funext a
  unfold cppSegOf cppTextOf
  by_cases h : goTrimSpace a.text = "" <;> simp [h]

theorem ffmpegCollect_fst :
    ∀ (l : List (Option FFmpegSegmentIn)) (segs : List Segment) (full : String),
      (ffmpegCollect l segs full).1 = segs ++ l.filterMap ffmpegSegOf
  | [], segs, full => by simp [ffmpegCollect]
  | none :: rest, segs, full => by
    simp [ffmpegCollect, ffmpegCollect_fst rest segs full, ffmpegSegOf, List.filterMap_cons]
  | some seg :: rest, segs, full => by
    simp only [ffmpegCollect]
    by_cases ht : goTrimSpace seg.text = ""
    · simp [ht, ffmpegCollect_fst rest segs full, ffmpegSegOf, List.filterMap_cons]
    · simp [ht, ffmpegCollect_fst rest _ _, ffmpegSegOf, List.filterMap_cons, List.append_assoc]

theorem ffmpegCollect_snd :
    ∀ (l : List (Option FFmpegSegmentIn)) (segs : List Segment) (full : String),
      (ffmpegCollect l segs full).2 = List.foldl joinSpaceStep full (l.filterMap ffmpegTextOf)
  | [], segs, full => by simp [ffmpegCollect]
  | none :: rest, segs, full => by
    simp [ffmpegCollect, ffmpegCollect_snd rest segs full, ffmpegTextOf, List.filterMap_cons]
  | some seg :: rest, segs, full => by
    simp only [ffmpegCollect]
    by_cases ht : goTrimSpace seg.text = ""
    · simp [ht, ffmpegCollect_snd rest segs full, ffmpegTextOf, List.filterMap_cons]
    · simp [ht, ffmpegCollect_snd rest _ _, ffmpegTextOf, List.filterMap_cons]

theorem ffmpegTextOf_ne_empty (l : List (Option FFmpegSegmentIn)) :
    ∀ t ∈ l.filterMap ffmpegTextOf, t ≠ "" := by
  intro t ht
  rw [List.mem_filterMap] at ht
  obtain ⟨a, _, ha⟩ := ht
  rcases a with _ | seg
  · simp [ffmpegTextOf] at ha
  · unfold ffmpegTextOf at ha
    by_cases h : goTrimSpace seg.text = ""
    · simp [h] at ha
    · simp only [h, Option.some_bind, if_false, ite_false, Option.some.injEq] at ha
      rw [← ha]
      exact h

theorem ffmpegSegOf_texts (l : List (Option FFmpegSegmentIn)) :
    (l.filterMap ffmpegSegOf).map Segment.text = l.filterMap ffmpegTextOf := by
  rw [List.map_filterMap]
  congr 1
  funext a
  rcases a with _ | seg
  · simp [ffmpegSegOf, ffmpegTextOf]
  · unfold ffmpegSegOf ffmpegTextOf
    by_cases h : goTrimSpace seg.text = "" <;> simp [h]

/-- C5: the claim that empty-trimmed segments are dropped in all three
local schemas fails for the reference/whisperx schema: a whitespace-only
segment is kept (with its text trimmed to the empty string) by
`parseOutput` instead of being dropped. -/
theorem c5_counterexample :
    (parseOutput whisperOutBlankSeg).segments = [⟨0, 1, "", ""⟩] ∧
    goTrimSpace " " = "" := by
  decide

/-- C5 (amended): the whisper-cpp and embedded-filter parsers drop every
segment whose trimmed text is empty — their segment lists are exactly the
`filterMap` keeping the non-empty trimmed entries, every kept segment has
non-empty text, and the synthesized transcript is the space-join of
exactly the kept texts; the reference/whisperx parser instead keeps every
segment, storing trimmed (possibly empty) text. -/
theorem c5_amended_empty_drop :
    (∀ out : WhisperOutput,
      (parseWhisperCPPOutput out).segments = out.transcription.filterMap cppSegOf ∧
      (parseWhisperCPPOutput out).text =
        spaceJoinAll ((parseWhisperCPPOutput out).segments.map Segment.text) ∧
      ∀ s ∈ (parseWhisperCPPOutput out).segments, s.text ≠ "") ∧
    (∀ lines : List (Option FFmpegSegmentIn),
      (parseFFmpegWhisperOutput lines).segments = lines.filterMap ffmpegSegOf ∧
      (parseFFmpegWhisperOutput lines).text =
        spaceJoinAll ((parseFFmpegWhisperOutput lines).segments.map Segment.text) ∧
      ∀ s ∈ (parseFFmpegWhisperOutput lines).segments, s.text ≠ "") ∧
    (∀ out : WhisperOutput, out.transcription = [] →
      (parseOutput out).segments =
        out.segments.map (fun s => (⟨s.start, s.end_, goTrimSpace s.text, ""⟩ : Segment))) := by
  refine ⟨?_, ?_, ?_⟩
  · intro out
    have hsegs : (parseWhisperCPPOutput out).segments = out.transcription.filterMap cppSegOf := by
      show (cppCollect out.transcription [] "").1 = _
      rw [cppCollect_fst]
      simp
    refine ⟨hsegs, ?_, ?_⟩
    · show (cppCollect out.transcription [] "").2 = _
      rw [cppCollect_snd, hsegs, cppSegOf_texts,
        foldl_joinSpaceStep_nil_start _ (cppTextOf_ne_empty out.transcription)]
    · intro s hs
      rw [hsegs, List.mem_filterMap] at hs
      obtain ⟨a, _, ha⟩ := hs
      unfold cppSegOf at ha
      by_cases h : goTrimSpace a.text = ""
      · simp [h] at ha
      · simp only [h, if_false, ite_false, Option.some.injEq] at ha
        rw [← ha]
        exact h
  · intro lines
    have hsegs : (parseFFmpegWhisperOutput lines).segments = lines.filterMap ffmpegSegOf := by
      show (ffmpegCollect lines [] "").1 = _
      rw [ffmpegCollect_fst]
      simp
    refine ⟨hsegs, ?_, ?_⟩
    · show (ffmpegCollect lines [] "").2 = _
      rw [ffmpegCollect_snd, hsegs, ffmpegSegOf_texts,
        foldl_joinSpaceStep_nil_start _ (ffmpegTextOf_ne_empty lines)]
    · intro s hs
      rw [hsegs, List.mem_filterMap] at hs
      obtain ⟨a, _, ha⟩ := hs
      rcases a with _ | seg
      · simp [ffmpegSegOf] at ha
      · unfold ffmpegSegOf at ha
        by_cases h : goTrimSpace seg.text = ""
        · simp [h] at ha
        · simp only [h, Option.some_bind, if_false, ite_false, Option.some.injEq] at ha
          rw [← ha]
          exact h
  · intro out ht
    simp [parseOutput, ht]

/-- C5 witness: the reference-schema parser keeps the whitespace-only
segment of `whisperOutBlankSeg`, with its text trimmed. -/
theorem c5_amended_empty_drop_witness :
    (parseOutput whisperOutBlankSeg).segments =
      whisperOutBlankSeg.segments.map
        (fun s => (⟨s.start, s.end_, goTrimSpace s.text, ""⟩ : Segment)) :=
  c5_amended_empty_drop.2.2 whisperOutBlankSeg (by decide)

/-! ### C6 -/

/-- C6: deepgram's capability row supports all five flags, so validation
never rejects a deepgram call; for openai and mistral (no flag supported),
any call requesting an unsupported flag stops before the HTTP request is
issued and — given a configured key, so the key check does not fire first —
fails with the error naming the backend and the first unsupported flag in
the order diarize, smart-format, punctuate, filler-words, numerals. -/
theorem c6_capability_validation :
    (∀ opts : TranscribeOpts, validateOpts "deepgram" opts true true true true true = none) ∧
    (∀ (key : String) (opts : TranscribeOpts) (f : String),
      firstUnsupportedFlag opts false false false false false = some f →
        openaiPreHttp key opts ≠ .httpIssued ∧
        (key ≠ "" → openaiPreHttp key opts = .failed ("openai does not support --" ++ f))) ∧
    (∀ (key : String) (opts : TranscribeOpts) (f : String),
      firstUnsupportedFlag opts false false false false false = some f →
        mistralPreHttp key opts ≠ .httpIssued ∧
        (key ≠ "" → mistralPreHttp key opts = .failed ("mistral does not support --" ++ f))) := by
  refine ⟨?_, ?_, ?_⟩
  · intro opts
    rw [validateOpts_eq_firstUnsupported]
    simp [firstUnsupportedFlag]
  · intro key opts f hf
    unfold openaiPreHttp
    by_cases hk : key = ""
    · simp [hk]
    · rw [if_neg hk, validateOpts_eq_firstUnsupported, hf]
      simp [hk]
  · intro key opts f hf
    unfold mistralPreHttp
    by_cases hk : key = ""
    · simp [hk]
    · rw [if_neg hk, validateOpts_eq_firstUnsupported, hf]
      simp [hk]

/-- C6 witness: an openai call requesting diarization fails before HTTP
with the expected message. -/
theorem c6_capability_validation_witness :
    openaiPreHttp "k" optsDiarize = .failed ("openai does not support --diarize") :=
  (c6_capability_validation.2.1 "k" optsDiarize "diarize" (by decide)).2 (by decide)

/-! ### C7 -/

/-- C7: the empty name resolves to `["default"]`; a non-empty group name
whose every member alias resolves yields the raw names in membership-list
order; a group with exactly one unresolvable member alias fails, and the
error text contains both the group name and the missing alias. -/
theorem c7_resolve_device :
    (∀ cfg : DeviceConfig, resolveDevice cfg "" = .ok ["default"]) ∧
    (∀ (cfg : DeviceConfig) (g : String) (aliases raws : List String),
      g ≠ "" → cfg.deviceGroups g = some aliases →
      aliases.mapM cfg.devices = some raws →
      resolveDevice cfg g = .ok raws) ∧
    (∀ (cfg : DeviceConfig) (g a : String) (aliases : List String),
      g ≠ "" → cfg.deviceGroups g = some aliases →
      a ∈ aliases → cfg.devices a = none →
      (∀ b ∈ aliases, cfg.devices b = none → b = a) →
      resolveDevice cfg g = .error (groupErrMsg g a) ∧
      (∃ u v, groupErrMsg g a = u ++ (g ++ v)) ∧
      (∃ u v, groupErrMsg g a = u ++ (a ++ v))) := by
  refine ⟨fun cfg => rfl, ?_, ?_⟩
  · intro cfg g aliases raws hg hgrp hmap
    rw [resolveDevice, if_neg hg, hgrp]
    exact resolveGroupAliases_ok cfg g aliases raws hmap
  · intro cfg g a aliases hg hgrp hmem ha huniq
    refine ⟨?_, ?_, ?_⟩
    · rw [resolveDevice, if_neg hg, hgrp]
      exact resolveGroupAliases_err cfg g a ha aliases hmem huniq
    · refine ⟨"device group \"", "\" references unknown alias \"" ++ a ++ "\"", ?_⟩
      apply String.ext
      simp [groupErrMsg]
    · refine ⟨"device group \"" ++ g ++ "\" references unknown alias \"", "\"", ?_⟩
      apply String.ext
      simp [groupErrMsg]

/-- C7 witness: the three behaviours on a concrete configuration. -/
theorem c7_resolve_device_witness :
    resolveDevice cfg0 "" = .ok ["default"] ∧
    resolveDevice cfg0 "zoom" = .ok ["rawmic", "rawdesk"] ∧
    resolveDevice cfg0 "broken" = .error (groupErrMsg "broken" "ghost") :=
  ⟨c7_resolve_device.1 cfg0,
   c7_resolve_device.2.1 cfg0 "zoom" ["mic", "desk"] ["rawmic", "rawdesk"]
     (by decide) (by decide) (by decide),
   (c7_resolve_device.2.2 cfg0 "broken" "ghost" ["mic", "ghost"]
     (by decide) (by decide) (by decide) (by decide) (by decide)).1⟩

/-! ### C9 -/

theorem unmarshal_marshal_segment (s : Segment) :
    unmarshalSegment (marshalSegment s) = some s := by
  obtain ⟨st, en, tx, sp⟩ := s
  by_cases hsp : sp = ""
  · subst hsp
    simp +decide [marshalSegment, unmarshalSegment, getStrField, getNumField, lookupField]
  · simp +decide [marshalSegment, unmarshalSegment, getStrField, getNumField, lookupField, hsp]

theorem unmarshal_marshal_segments (l : List Segment) :
    decodeSegments (l.map marshalSegment) = some l := by
  induction l with
  | nil => rfl
  | cons s rest ih => simp [decodeSegments, unmarshal_marshal_segment, ih]

/-- C9: decoding the JSON value produced by `Format(r, JSON)` reproduces
the text, segment sequence, language and duration of `r` exactly
(round-trip law). -/
theorem c9_json_roundtrip (r : Result) :
    unmarshalResult (marshalResult r) = some r := by
  obtain ⟨tx, segs, lang, dur⟩ := r
  by_cases h1 : segs = [] <;> by_cases h2 : lang = "" <;> by_cases h3 : dur = 0 <;>
    simp +decide [marshalResult, unmarshalResult, getStrField, getNumField, lookupField,
      h1, h2, h3, unmarshal_marshal_segments]

/-! ### C10 -/

/-- C10: the embedded-filter timestamp parser returns 0 seconds for every
input that does not split into exactly three colon-separated fields; a
malformed `from`/`to` silently becomes time 0. -/
theorem c10_malformed_timestamp (ts : String)
    (h : (splitOnChar ':' ts.data).length ≠ 3) : parseTimestamp ts = 0 := by
  unfold parseTimestamp
  rcases hs : splitOnChar ':' ts.data with _ | ⟨p0, _ | ⟨p1, _ | ⟨p2, _ | ⟨p3, rest⟩⟩⟩⟩
  · simp
  · simp
  · simp
  · exact absurd (by simp [hs]) h
  · simp

/-- C10 witness: a two-field timestamp parses to 0. -/
theorem c10_malformed_timestamp_witness :
    parseTimestamp "01:02" = 0 :=
  c10_malformed_timestamp "01:02" (by decide)

end Audiomemo
